import Mathlib

/-
  Shallow embedding of the retail POS core found in src/validation.ts:
  the login rate limiter, the stock ledger mutation paths (manual
  adjustment, transaction commit, order shipment), and the order
  fulfillment handler.  JS numeric amounts (stock counts, quantities and
  money, integral in every code path the claims touch) are modelled as
  integers, timestamps
  for the rate limiter as integer milliseconds, ISO timestamp strings as
  opaque String parameters.  The key-value store is modelled as function
  maps for products and orders plus lists for history entries and
  transactions.
-/

namespace POS

/-- The authenticated actor attached to every mutating call
    (verifyResult.user.id and verifyResult.userData.name). -/
structure Actor where
  userId : String
  userName : String
deriving Repr, DecidableEq

-- ============ RATE LIMITING (src/validation.ts lines 255-309) ============

/-- One entry of the loginAttempts map. -/
structure AttemptRecord where
  count : Nat
  lockoutUntil : Option Int := none
  lastAttemptAt : Option Int := none
deriving Repr, DecidableEq

/-- The loginAttempts JS Map, modelled as an insertion-ordered association
    list (JS Map preserves insertion order; set on an existing key keeps
    its position, set on a fresh key appends at the end). -/
abbrev AttemptMap := List (String × AttemptRecord)

def MAX_LOGIN_ATTEMPTS : Nat := 5

def LOCKOUT_DURATION : Int := 15 * 60 * 1000

def ATTEMPT_WINDOW : Int := 15 * 60 * 1000

def mapGet (m : AttemptMap) (k : String) : Option AttemptRecord :=
  (m.find? (fun e => e.1 == k)).map (fun e => e.2)

def mapSet : AttemptMap → String → AttemptRecord → AttemptMap
  | [], k, v => [(k, v)]
  | e :: rest, k, v => if e.1 == k then (k, v) :: rest else e :: mapSet rest k v

def mapDel (m : AttemptMap) (k : String) : AttemptMap :=
  m.filter (fun e => !(e.1 == k))

/-- The first guard of checkRateLimit: attempt lockoutUntil is set and in
    the future.  (JS truthiness of a 0 timestamp is ignored: real
    timestamps are positive.) -/
def lockActive (a : AttemptRecord) (now : Int) : Bool :=
  match a.lockoutUntil with
  | some l => now < l
  | none => false

/-- The second guard of checkRateLimit: the last attempt is older than the
    attempt window. -/
def windowExpired (a : AttemptRecord) (now : Int) : Bool :=
  match a.lastAttemptAt with
  | some t => ATTEMPT_WINDOW < now - t
  | none => false

/-- Result shape of checkRateLimit. -/
structure RLResult where
  allowed : Bool
  remainingAttempts : Option Nat := none
  lockoutUntil : Option Int := none
deriving Repr, DecidableEq

/-- checkRateLimit (src/validation.ts lines 262-284).  Returns the result
    together with the updated loginAttempts map. -/
def checkRateLimit (m : AttemptMap) (id : String) (now : Int) :
    RLResult × AttemptMap :=
  match mapGet m id with
  | none => ({ allowed := true, remainingAttempts := some MAX_LOGIN_ATTEMPTS }, m)
  | some attempt =>
    if lockActive attempt now then
      ({ allowed := false, lockoutUntil := attempt.lockoutUntil }, m)
    else if windowExpired attempt now then
      ({ allowed := true, remainingAttempts := some MAX_LOGIN_ATTEMPTS },
       mapSet m id { count := 0 })
    else if MAX_LOGIN_ATTEMPTS ≤ attempt.count then
      let lockoutUntil := now + LOCKOUT_DURATION
      ({ allowed := false, lockoutUntil := some lockoutUntil },
       mapSet m id { count := attempt.count, lockoutUntil := some lockoutUntil,
                     lastAttemptAt := some now })
    else
      ({ allowed := true,
         remainingAttempts := some (MAX_LOGIN_ATTEMPTS - attempt.count) }, m)

/-- recordLoginAttempt (src/validation.ts lines 286-299).  A success
    deletes the record; a failure increments the count, stamps
    lastAttemptAt (dropping any stored lockout), and evicts the 100 oldest
    identifiers when the map exceeds 1000 entries. -/
def recordLoginAttempt (m : AttemptMap) (id : String) (success : Bool)
    (now : Int) : AttemptMap :=
  if success then
    mapDel m id
  else
    let count := (match mapGet m id with | some a => a.count | none => 0) + 1
    let m' := mapSet m id { count := count, lastAttemptAt := some now }
    if 1000 < m'.length then
      (m'.take 100).foldl (fun acc e => mapDel acc e.1) m'
    else
      m'

/-- A sequence of consecutive failure records for one identifier, at the
    given times. -/
def recordFailures (m : AttemptMap) (id : String) (ts : List Int) : AttemptMap :=
  ts.foldl (fun acc t => recordLoginAttempt acc id false t) m

/-- The stored consecutive-failure count of an identifier (0 when no
    record exists), mirroring the attempt count fallback of
    recordLoginAttempt. -/
def cntOf (m : AttemptMap) (id : String) : Nat :=
  match mapGet m id with
  | some a => a.count
  | none => 0

-- ============ DATA MODEL (products, history, transactions, orders) ============

/-- A product record, as persisted under key product:id.  Numeric fields
    are modelled as integers. -/
structure Product where
  id : String
  name : String
  sellingPrice : ℤ
  costPrice : ℤ
  stock : ℤ
  updatedAt : String
deriving Repr, DecidableEq

/-- A stock history record, as persisted under key stock_history:id by the
    manual adjustment, transaction and order-shipment handlers. -/
structure StockHistoryEntry where
  productId : String
  productName : String
  change : ℤ
  type : String
  timestamp : String
  userId : String
  userName : String
  reason : String
deriving Repr, DecidableEq

/-- One requested sale line (productId and quantity), the shape produced
    by validateTransaction. -/
structure TxReq where
  productId : String
  quantity : ℤ
deriving Repr, DecidableEq

/-- One processed line of a persisted transaction. -/
structure TxLine where
  productId : String
  productName : String
  quantity : ℤ
  sellingPrice : ℤ
  costPrice : ℤ
  total : ℤ
  cogs : ℤ
deriving Repr, DecidableEq

/-- A persisted sale receipt. -/
structure Transaction where
  items : List TxLine
  subtotal : ℤ
  discount : ℤ
  total : ℤ
  cogs : ℤ
  profit : ℤ
  cashierId : String
  cashierName : String
  timestamp : String
deriving Repr, DecidableEq

/-- One line item of a delivery order. -/
structure OrderItem where
  productId : String
  productName : String
  quantity : ℤ
  sellingPrice : ℤ
  total : ℤ
deriving Repr, DecidableEq

/-- A delivery order, as persisted under key order:id. -/
structure Order where
  id : String
  customerName : String
  items : List OrderItem
  totalAmount : ℤ
  status : String
  stockReduced : Bool
  notes : String
  shippedAt : Option String
  shippedBy : Option String
  deliveredAt : Option String
  updatedAt : String
deriving Repr, DecidableEq

/-- Typed failures surfaced by the handlers (HTTP 404, insufficient-stock
    400, invalid-input 400). -/
inductive Err where
  | notFound
  | insufficientStock
  | validation
deriving Repr, DecidableEq

deriving instance DecidableEq for Except

/-- The slice of the key-value store the core operations read and write:
    products and orders as keyed maps, stock history and transactions as
    collections of records (their keys never collide, so a list of the
    stored documents is a faithful view). -/
structure State where
  products : String → Option Product
  history : List StockHistoryEntry
  transactions : List Transaction
  orders : String → Option Order

/-- The stock the store currently holds for a product id (0 when the
    product record is absent). -/
def stockOf (s : State) (pid : String) : ℤ :=
  match s.products pid with
  | some p => p.stock
  | none => 0

/-- Sum of the change fields of the history entries of one product. -/
def histSumL (h : List StockHistoryEntry) (pid : String) : ℤ :=
  ((h.filter (fun e => e.productId == pid)).map (fun e => e.change)).sum

/-- Sum of the change fields of the stored history entries of one
    product. -/
def histSum (s : State) (pid : String) : ℤ :=
  histSumL s.history pid

-- ============ STOCK ADJUSTMENT (PUT /stock/:productId, lines 869-917) ============

/-- The manual stock adjustment handler body after validation
    (src/validation.ts lines 887-909): clamps the new stock at 0 with
    Math.max, persists the product, and appends a history entry carrying
    the requested change. -/
def adjustStock (s : State) (pid : String) (change : ℤ)
    (type? reason? : Option String) (now : String) (actor : Actor) :
    Except Err Product × State :=
  match s.products pid with
  | none => (.error .notFound, s)
  | some product =>
    let newStock := max 0 (product.stock + change)
    let p' : Product := { product with stock := newStock, updatedAt := now }
    let entry : StockHistoryEntry :=
      { productId := pid, productName := product.name, change := change,
        type := type?.getD "adjustment", timestamp := now,
        userId := actor.userId, userName := actor.userName,
        reason := reason?.getD "" }
    (.ok p',
     { s with products := fun k => if k = pid then some p' else s.products k,
              history := entry :: s.history })

-- ============ TRANSACTION COMMIT (POST /transactions, lines 561-631) ============

/-- The per-line loop of the transaction handler (src/validation.ts lines
    578-618): loads the product, rejects a missing product or insufficient
    stock, otherwise decrements stock, appends a history entry, and
    accumulates subtotal, cogs and the processed line items. -/
def commitTxGo (actor : Actor) (now : String) (discount : ℤ) :
    State → List TxReq → ℤ → ℤ → List TxLine → Except Err Transaction × State
  | s, [], subtotal, totalCogs, processed =>
    let total := max 0 (subtotal - discount)
    let profit := total - totalCogs
    let t : Transaction :=
      { items := processed, subtotal := subtotal, discount := discount,
        total := total, cogs := totalCogs, profit := profit,
        cashierId := actor.userId, cashierName := actor.userName,
        timestamp := now }
    (.ok t, { s with transactions := t :: s.transactions })
  | s, item :: rest, subtotal, totalCogs, processed =>
    match s.products item.productId with
    | none => (.error .notFound, s)
    | some product =>
      if product.stock < item.quantity then
        (.error .insufficientStock, s)
      else
        let p' : Product :=
          { product with stock := product.stock - item.quantity, updatedAt := now }
        let entry : StockHistoryEntry :=
          { productId := item.productId, productName := product.name,
            change := -item.quantity, type := "transaction", timestamp := now,
            userId := actor.userId, userName := actor.userName,
            reason := "Sales transaction" }
        let line : TxLine :=
          { productId := item.productId, productName := product.name,
            quantity := item.quantity, sellingPrice := product.sellingPrice,
            costPrice := product.costPrice,
            total := product.sellingPrice * item.quantity,
            cogs := product.costPrice * item.quantity }
        let s' : State :=
          { s with
            products := fun k => if k = item.productId then some p' else s.products k,
            history := entry :: s.history }
        commitTxGo actor now discount s' rest
          (subtotal + product.sellingPrice * item.quantity)
          (totalCogs + product.costPrice * item.quantity)
          (processed ++ [line])

/-- The transaction handler body after validation (src/validation.ts lines
    574-627): processes the lines in input order and, when all succeed,
    persists a receipt with total = max(0, subtotal - discount) and
    profit = total - cogs.  A failure at any line returns early, leaving
    the decrements of earlier lines in place and persisting no receipt. -/
def commitTx (s : State) (actor : Actor) (now : String) (items : List TxReq)
    (discount : ℤ) : Except Err Transaction × State :=
  commitTxGo actor now discount s items 0 0 []

-- ============ ORDER UPDATE (PUT /orders/:id, lines 1138-1210) ============

/-- The JSON body of an order update request, restricted to the order
    fields the handler and its callers touch.  A field set to none is
    absent from the patch; a present field is spread verbatim over the
    stored order. -/
structure OrderPatch where
  status : Option String := none
  stockReduced : Option Bool := none
  items : Option (List OrderItem) := none
  totalAmount : Option ℤ := none
  customerName : Option String := none
  notes : Option String := none
  shippedAt : Option String := none
  shippedBy : Option String := none
  deliveredAt : Option String := none
deriving Repr, DecidableEq

/-- The status allowlist check of the handler (src/validation.ts lines
    1156-1159): an absent status passes, a present one must be pending,
    shipped or delivered. -/
def statusOkB (st : Option String) : Bool :=
  match st with
  | none => true
  | some v => v == "pending" || v == "shipped" || v == "delivered"

/-- The spread-merge of the stored order with the patch, modelling the
    object spread of the handler together with the fresh updatedAt stamp
    (src/validation.ts line 1202). -/
def mergeOrder (o : Order) (p : OrderPatch) (now : String) : Order :=
  { id := o.id
    customerName := p.customerName.getD o.customerName
    items := p.items.getD o.items
    totalAmount := p.totalAmount.getD o.totalAmount
    status := p.status.getD o.status
    stockReduced := p.stockReduced.getD o.stockReduced
    notes := p.notes.getD o.notes
    shippedAt := if p.shippedAt.isSome then p.shippedAt else o.shippedAt
    shippedBy := if p.shippedBy.isSome then p.shippedBy else o.shippedBy
    deliveredAt := if p.deliveredAt.isSome then p.deliveredAt else o.deliveredAt
    updatedAt := now }

/-- The deliveredAt stamp of the handler (src/validation.ts lines
    1197-1200): a patch requesting the delivered status gets deliveredAt
    overwritten with the current time before the merge. -/
def deliveredStamp (p : OrderPatch) (now : String) : OrderPatch :=
  if p.status = some "delivered" then { p with deliveredAt := some now } else p

/-- The per-line loop of the shipment path (src/validation.ts lines
    1163-1189): a line whose product record is absent is skipped entirely;
    a line with insufficient stock aborts the whole call, leaving the
    decrements of earlier lines in place; otherwise stock is decremented
    and a history entry appended. -/
def shipItems (actor : Actor) (customerName : String) (now : String) :
    State → List OrderItem → Except Err Unit × State
  | s, [] => (.ok (), s)
  | s, item :: rest =>
    match s.products item.productId with
    | none => shipItems actor customerName now s rest
    | some product =>
      if product.stock < item.quantity then
        (.error .insufficientStock, s)
      else
        let p' : Product :=
          { product with stock := product.stock - item.quantity, updatedAt := now }
        let entry : StockHistoryEntry :=
          { productId := item.productId, productName := product.name,
            change := -item.quantity, type := "order", timestamp := now,
            userId := actor.userId, userName := actor.userName,
            reason := "Order delivery: " ++ customerName }
        let s' : State :=
          { s with
            products := fun k => if k = item.productId then some p' else s.products k,
            history := entry :: s.history }
        shipItems actor customerName now s' rest

/-- The order update handler body (src/validation.ts lines 1144-1205):
    loads the order, validates a present status against the allowlist,
    runs the one-time stock reduction when the patch requests the shipped
    status and stockReduced is still false (stamping stockReduced,
    shippedAt and shippedBy into the patch on success), stamps deliveredAt
    when the patch requests the delivered status, then spread-merges the
    patch over the stored order and persists it. -/
def updateOrder (s : State) (oid : String) (patch : OrderPatch) (now : String)
    (actor : Actor) : Except Err Order × State :=
  match s.orders oid with
  | none => (.error .notFound, s)
  | some order =>
    if statusOkB patch.status then
      if patch.status = some "shipped" ∧ order.stockReduced = false then
        match shipItems actor order.customerName now s order.items with
        | (.error e, s') => (.error e, s')
        | (.ok _, s') =>
          let patch' : OrderPatch :=
            { patch with stockReduced := some true, shippedAt := some now,
                         shippedBy := some actor.userName }
          let newOrder := mergeOrder order (deliveredStamp patch' now) now
          (.ok newOrder,
           { s' with orders := fun k => if k = oid then some newOrder else s'.orders k })
      else
        let newOrder := mergeOrder order (deliveredStamp patch now) now
        (.ok newOrder,
         { s with orders := fun k => if k = oid then some newOrder else s.orders k })
    else
      (.error .validation, s)

-- ============ OPERATION SEQUENCES ============

/-- One stock-mutating call: a manual adjustment, a transaction commit, or
    an order update (which ships when the patch requests it). -/
inductive Op where
  | adjust (pid : String) (change : ℤ) (type? reason? : Option String)
      (now : String) (actor : Actor)
  | tx (items : List TxReq) (discount : ℤ) (now : String) (actor : Actor)
  | orderUpdate (oid : String) (patch : OrderPatch) (now : String) (actor : Actor)

/-- Applies one call and keeps the resulting store state, whether the call
    succeeded or returned early with an error. -/
def applyOp (s : State) (op : Op) : State :=
  match op with
  | .adjust pid change type? reason? now actor =>
    (adjustStock s pid change type? reason? now actor).2
  | .tx items discount now actor =>
    (commitTx s actor now items discount).2
  | .orderUpdate oid patch now actor =>
    (updateOrder s oid patch now actor).2

/-- Applies a sequence of calls in order. -/
def applyOps (s : State) (ops : List Op) : State :=
  ops.foldl applyOp s

/-- Every stored product has nonnegative stock. -/
def NonNegStocks (s : State) : Prop :=
  ∀ pid p, s.products pid = some p → 0 ≤ p.stock

/-- A single call does not clamp: a manual adjustment keeps the resulting
    stock nonnegative without the Math.max cutoff taking effect.  Calls
    other than manual adjustments never clamp. -/
def NoClampOp (s : State) (op : Op) : Prop :=
  match op with
  | .adjust pid change _ _ _ _ => ∀ p, s.products pid = some p → 0 ≤ p.stock + change
  | _ => True

/-- A sequence of calls in which no manual adjustment ever clamps. -/
def NoClampSeq : State → List Op → Prop
  | _, [] => True
  | s, op :: rest => NoClampOp s op ∧ NoClampSeq (applyOp s op) rest

-- ============ DERIVED SUMS AND EXAMPLE STORE ============

/-- Revenue side of a list of processed transaction lines: the sum of
    sellingPrice times quantity. -/
def salesSum (L : List TxLine) : ℤ :=
  (L.map (fun l => l.sellingPrice * l.quantity)).sum

/-- Cost side of a list of processed transaction lines: the sum of
    costPrice times quantity. -/
def cogsSum (L : List TxLine) : ℤ :=
  (L.map (fun l => l.costPrice * l.quantity)).sum

/-- Total quantity requested for one product across a transaction request
    list. -/
def reqQty (items : List TxReq) (pid : String) : ℤ :=
  ((items.filter (fun i => i.productId == pid)).map (fun i => i.quantity)).sum

/-- Total quantity of one product across the line items of an order. -/
def orderQty (items : List OrderItem) (pid : String) : ℤ :=
  ((items.filter (fun i => i.productId == pid)).map (fun i => i.quantity)).sum

/-- A small concrete catalog used by witnesses: product p1 sells at 10
    with cost 4 and stock 8, product p2 sells at 5 with cost 2 and
    stock 9. -/
def exProducts : String → Option Product := fun k =>
  if k = "p1" then
    some { id := "p1", name := "A", sellingPrice := 10, costPrice := 4,
           stock := 8, updatedAt := "t0" }
  else if k = "p2" then
    some { id := "p2", name := "B", sellingPrice := 5, costPrice := 2,
           stock := 9, updatedAt := "t0" }
  else none

/-- A concrete store state holding the example catalog, no history, no
    transactions, and a single pending order o1 for 2 units of p1. -/
def exOrder : Order :=
  { id := "o1", customerName := "C",
    items := [{ productId := "p1", productName := "A", quantity := 2,
                sellingPrice := 10, total := 20 }],
    totalAmount := 20, status := "pending", stockReduced := false,
    notes := "", shippedAt := none, shippedBy := none, deliveredAt := none,
    updatedAt := "t0" }

def exState : State :=
  { products := exProducts, history := [], transactions := [],
    orders := fun k => if k = "o1" then some exOrder else none }

def exActor : Actor := { userId := "u1", userName := "U" }

/-- The patch a client sends to request shipment: only the status field is
    present. -/
def shipPatch : OrderPatch := { status := some "shipped" }

/-- The concrete sale request of the spec example: 2 units of p1 and 3
    units of p2. -/
def exItems : List TxReq :=
  [{ productId := "p1", quantity := 2 }, { productId := "p2", quantity := 3 }]

/-- A delivered order (stock already reduced), for exercising status
    transitions out of the terminal state. -/
def exOrderD : Order :=
  { exOrder with id := "oD", status := "delivered", stockReduced := true }

/-- The example store extended with the delivered order oD. -/
def exStateD : State :=
  { exState with orders := fun k => if k = "oD" then some exOrderD else none }

/-- A patch that exercises the verbatim merge: requests the delivered
    status and carries stockReduced, items, totalAmount and notes
    values. -/
def exPatch : OrderPatch :=
  { status := some "delivered", stockReduced := some true, items := some [],
    totalAmount := some 7, notes := some "n" }

/-- The order produced by the first successful shipped transition of
    exOrder at time t1 by exActor. -/
def exShipped : Order :=
  { exOrder with
    status := "shipped", stockReduced := true,
    shippedAt := some "t1", shippedBy := some "U", updatedAt := "t1" }

/-- A line item whose product record does not exist in the store. -/
def ghostItem : OrderItem :=
  { productId := "ghost", productName := "X", quantity := 1,
    sellingPrice := 1, total := 1 }

/-- A pending order containing only the dangling line item. -/
def ghostOrder : Order :=
  { id := "oG", customerName := "G", items := [ghostItem], totalAmount := 1,
    status := "pending", stockReduced := false, notes := "",
    shippedAt := none, shippedBy := none, deliveredAt := none,
    updatedAt := "t0" }

/-- A store with no products at all and the single order oG. -/
def ghostState : State :=
  { products := fun _ => none, history := [], transactions := [],
    orders := fun k => if k = "oG" then some ghostOrder else none }

/-- The receipt the transaction handler produces for exItems with
    discount 5 against exState. -/
def exTx : Transaction :=
  { items :=
      [{ productId := "p1", productName := "A", quantity := 2,
         sellingPrice := 10, costPrice := 4, total := 20, cogs := 8 },
       { productId := "p2", productName := "B", quantity := 3,
         sellingPrice := 5, costPrice := 2, total := 15, cogs := 6 }],
    subtotal := 35, discount := 5, total := 30, cogs := 14, profit := 16,
    cashierId := "u1", cashierName := "U", timestamp := "t1" }

-- ============ RATE LIMITER LEMMAS ============

lemma mapGet_nil (k : String) : mapGet [] k = none := rfl

lemma mapGet_cons (e : String × AttemptRecord) (m : AttemptMap) (k : String) :
    mapGet (e :: m) k = if e.1 == k then some e.2 else mapGet m k := by
  by_cases h : e.1 == k <;> simp [mapGet, List.find?, h]

lemma mapGet_set_self (m : AttemptMap) (k : String) (v : AttemptRecord) :
    mapGet (mapSet m k v) k = some v := by
  induction m with
  | nil => simp [mapSet, mapGet_cons]
  | cons e rest ih =>
    by_cases h : e.1 == k
    · simp [mapSet, h, mapGet_cons]
    · simp [mapSet, h, mapGet_cons, ih]

lemma length_mapSet (m : AttemptMap) (k : String) (v : AttemptRecord) :
    (mapSet m k v).length ≤ m.length + 1 := by
  induction m with
  | nil => simp [mapSet]
  | cons e rest ih =>
    by_cases h : e.1 == k
    · simp [mapSet, h]
    · simp [mapSet, h]
      omega

lemma mapGet_del_self (m : AttemptMap) (k : String) :
    mapGet (mapDel m k) k = none := by
  induction m with
  | nil => rfl
  | cons e rest ih =>
    by_cases h : e.1 == k
    · simpa [mapDel, h] using ih
    · simpa [mapDel, h, mapGet_cons] using ih

lemma length_mapDel (m : AttemptMap) (k : String) :
    (mapDel m k).length ≤ m.length :=
  List.length_filter_le _ m

lemma cntOf_del_self (m : AttemptMap) (k : String) : cntOf (mapDel m k) k = 0 := by
  simp [cntOf, mapGet_del_self]

/-- As long as the map stays at or below 999 entries, a failure record is
    exactly a set of the incremented count with a fresh lastAttemptAt (no
    eviction fires). -/
lemma recordFail_eq (m : AttemptMap) (id : String) (t : Int) (h : m.length ≤ 999) :
    recordLoginAttempt m id false t =
      mapSet m id { count := cntOf m id + 1, lastAttemptAt := some t } := by
  have hno : ¬ (1000 < (mapSet m id
      { count := cntOf m id + 1, lastAttemptAt := some t }).length) := by
    have := length_mapSet m id
      ({ count := cntOf m id + 1, lastAttemptAt := some t } : AttemptRecord)
    omega
  simp only [recordLoginAttempt, Bool.false_eq_true, if_false]
  rw [show (match mapGet m id with | some a => a.count | none => 0) = cntOf m id
    from rfl]
  exact if_neg hno

/-- Characterization of a nonempty run of consecutive failure records: the
    count grows by the number of failures, lastAttemptAt is the last
    failure time, no lockout is stored, and the map grows by at most the
    number of failures. -/
lemma recordFailures_spec (id : String) :
    ∀ (ts : List Int) (m : AttemptMap) (tl : Int),
      m.length + ts.length ≤ 1000 → ts.getLast? = some tl →
      mapGet (recordFailures m id ts) id =
        some { count := cntOf m id + ts.length, lastAttemptAt := some tl } ∧
      (recordFailures m id ts).length ≤ m.length + ts.length := by
  intro ts
  induction ts with
  | nil => intro m tl _ hlast; simp at hlast
  | cons t rest ih =>
    intro m tl hlen hlast
    have h999 : m.length ≤ 999 := by simp at hlen; omega
    have hstep : recordLoginAttempt m id false t =
        mapSet m id { count := cntOf m id + 1, lastAttemptAt := some t } :=
      recordFail_eq m id t h999
    have hfold : recordFailures m id (t :: rest) =
        recordFailures (recordLoginAttempt m id false t) id rest := by
      simp [recordFailures]
    have hlen1 : (recordLoginAttempt m id false t).length ≤ m.length + 1 := by
      rw [hstep]; exact length_mapSet m id _
    cases rest with
    | nil =>
      simp only [List.getLast?_singleton, Option.some_inj] at hlast
      subst hlast
      constructor
      · rw [hfold, hstep]
        simp [recordFailures, mapGet_set_self]
      · rw [hfold]
        simpa [recordFailures] using hlen1
    | cons r rs =>
      have hlast2 : (r :: rs).getLast? = some tl := by
        rw [← hlast]; simp [List.getLast?_cons_cons]
      have hlen2 : (recordLoginAttempt m id false t).length + (r :: rs).length ≤ 1000 := by
        simp at hlen ⊢; omega
      obtain ⟨hget, hl⟩ := ih (recordLoginAttempt m id false t) tl hlen2 hlast2
      have hcnt : cntOf (recordLoginAttempt m id false t) id = cntOf m id + 1 := by
        rw [hstep]; simp [cntOf, mapGet_set_self]
      refine ⟨?_, ?_⟩
      · rw [hfold, hget, hcnt]
        congr 2
        simp; omega
      · rw [hfold]
        calc (recordFailures (recordLoginAttempt m id false t) id (r :: rs)).length
            ≤ (recordLoginAttempt m id false t).length + (r :: rs).length := hl
          _ ≤ m.length + (t :: r :: rs).length := by simp; omega

/-- checkRateLimit on a stored failure record with no lockout and a last
    attempt still inside the window: locks out when the count has reached
    5, otherwise allows with the remaining attempts. -/
lemma check_of_failrec (m : AttemptMap) (id : String) (now : Int) (c : Nat)
    (tl : Int) (hget : mapGet m id = some { count := c, lastAttemptAt := some tl })
    (hwin : now - tl ≤ ATTEMPT_WINDOW) :
    checkRateLimit m id now =
      if 5 ≤ c then
        ({ allowed := false, lockoutUntil := some (now + LOCKOUT_DURATION) },
         mapSet m id { count := c, lockoutUntil := some (now + LOCKOUT_DURATION),
                       lastAttemptAt := some now })
      else
        ({ allowed := true, remainingAttempts := some (5 - c) }, m) := by
  have h1 : lockActive { count := c, lastAttemptAt := some tl } now = false := rfl
  have h2 : windowExpired { count := c, lastAttemptAt := some tl } now = false := by
    simp only [windowExpired]
    simpa using not_lt.mpr (by omega : now - tl ≤ ATTEMPT_WINDOW)
  simp only [checkRateLimit, hget, h1, h2, Bool.false_eq_true, if_false,
    MAX_LOGIN_ATTEMPTS]

/-- C6: for any identifier, 5 consecutive failure records followed by a
    check yield allowed = false with a lockout expiring 15 minutes after
    the check (the lockout is computed lazily at the check, from the check
    timestamp); a single intervening success record clears the stored
    record entirely, after which fewer than 5 fresh consecutive failures
    still check as allowed (with the matching remaining-attempts count)
    and 5 fresh failures are needed to lock out again. -/
theorem rate_limiter_lockout
    (m : AttemptMap) (id : String) (ts : List Int) (tl tc tOk : Int)
    (hlen : m.length ≤ 900)
    (h5 : ts.length = 5) (hlast : ts.getLast? = some tl)
    (hwin : tc - tl ≤ ATTEMPT_WINDOW) :
    (checkRateLimit (recordFailures m id ts) id tc).1 =
      { allowed := false, lockoutUntil := some (tc + LOCKOUT_DURATION) } ∧
    mapGet (recordLoginAttempt (recordFailures m id ts) id true tOk) id = none ∧
    (∀ ts2 tl2 tc2, ts2.length < 5 → ts2.getLast? = some tl2 →
      tc2 - tl2 ≤ ATTEMPT_WINDOW →
      (checkRateLimit
        (recordFailures (recordLoginAttempt (recordFailures m id ts) id true tOk)
          id ts2) id tc2).1 =
        { allowed := true, remainingAttempts := some (5 - ts2.length) }) ∧
    (∀ ts2 tl2 tc2, ts2.length = 5 → ts2.getLast? = some tl2 →
      tc2 - tl2 ≤ ATTEMPT_WINDOW →
      (checkRateLimit
        (recordFailures (recordLoginAttempt (recordFailures m id ts) id true tOk)
          id ts2) id tc2).1 =
        { allowed := false, lockoutUntil := some (tc2 + LOCKOUT_DURATION) }) := by
  have hlen5 : m.length + ts.length ≤ 1000 := by omega
  obtain ⟨hget, hl⟩ := recordFailures_spec id ts m tl hlen5 hlast
  have hsucc : recordLoginAttempt (recordFailures m id ts) id true tOk =
      mapDel (recordFailures m id ts) id := by
    simp [recordLoginAttempt]
  have hdel : mapGet (recordLoginAttempt (recordFailures m id ts) id true tOk) id
      = none := by
    rw [hsucc]; exact mapGet_del_self _ id
  have hcnt0 : cntOf (recordLoginAttempt (recordFailures m id ts) id true tOk) id
      = 0 := by
    simp [cntOf, hdel]
  have hlenDel : (recordLoginAttempt (recordFailures m id ts) id true tOk).length
      ≤ m.length + 5 := by
    rw [hsucc]
    calc (mapDel (recordFailures m id ts) id).length
        ≤ (recordFailures m id ts).length := length_mapDel _ id
      _ ≤ m.length + ts.length := hl
      _ = m.length + 5 := by omega
  refine ⟨?_, hdel, ?_, ?_⟩
  · rw [check_of_failrec _ id tc _ tl hget hwin,
      if_pos (by omega : 5 ≤ cntOf m id + ts.length)]
  · intro ts2 tl2 tc2 hlt hlast2 hwin2
    have hlen2 : (recordLoginAttempt (recordFailures m id ts) id true tOk).length
        + ts2.length ≤ 1000 := by omega
    obtain ⟨hget2, _⟩ := recordFailures_spec id ts2 _ tl2 hlen2 hlast2
    rw [hcnt0] at hget2
    rw [check_of_failrec _ id tc2 _ tl2 hget2 hwin2,
      if_neg (by omega : ¬ 5 ≤ 0 + ts2.length)]
    simp
  · intro ts2 tl2 tc2 heq hlast2 hwin2
    have hlen2 : (recordLoginAttempt (recordFailures m id ts) id true tOk).length
        + ts2.length ≤ 1000 := by omega
    obtain ⟨hget2, _⟩ := recordFailures_spec id ts2 _ tl2 hlen2 hlast2
    rw [hcnt0] at hget2
    rw [check_of_failrec _ id tc2 _ tl2 hget2 hwin2,
      if_pos (by omega : 5 ≤ 0 + ts2.length)]

/-- Witness for C6 at a concrete run: 5 failures at times 1..5, the check
    at time 5 denies with a lockout 15 minutes later; after a success at
    time 6 and 3 fresh failures, the check allows with 2 attempts left. -/
theorem rate_limiter_lockout_witness :
    (checkRateLimit (recordFailures [] "u" [1, 2, 3, 4, 5]) "u" 5).1 =
      { allowed := false, lockoutUntil := some (5 + LOCKOUT_DURATION) } ∧
    (checkRateLimit
      (recordFailures (recordLoginAttempt (recordFailures [] "u" [1, 2, 3, 4, 5])
        "u" true 6) "u" [7, 8, 9]) "u" 9).1 =
      { allowed := true, remainingAttempts := some 2 } := by
  have h := rate_limiter_lockout [] "u" [1, 2, 3, 4, 5] 5 5 6 (by decide)
    (by decide) (by decide) (by decide)
  refine ⟨h.1, ?_⟩
  have h3 := h.2.2.1 [7, 8, 9] 9 9 (by decide) (by decide) (by decide)
  simpa using h3

/-- C9: a check on an identifier with a stored failure record, no active
    lockout, and a last attempt more than 15 minutes old resets the
    failure count to 0 and allows with the full number of remaining
    attempts. -/
theorem window_expiry_forgiveness
    (m : AttemptMap) (id : String) (now : Int) (a : AttemptRecord) (tl : Int)
    (hget : mapGet m id = some a)
    (hlock : ∀ l, a.lockoutUntil = some l → l ≤ now)
    (hlast : a.lastAttemptAt = some tl)
    (hwin : ATTEMPT_WINDOW < now - tl) :
    (checkRateLimit m id now).1 =
      { allowed := true, remainingAttempts := some MAX_LOGIN_ATTEMPTS } ∧
    mapGet (checkRateLimit m id now).2 id = some { count := 0 } := by
  have h1 : lockActive a now = false := by
    unfold lockActive
    cases hcase : a.lockoutUntil with
    | none => rfl
    | some l => simpa using not_lt.mpr (hlock l hcase)
  have h2 : windowExpired a now = true := by
    unfold windowExpired
    rw [hlast]
    simpa using hwin
  simp only [checkRateLimit, hget, h1, h2, Bool.false_eq_true, if_false, if_true]
  exact ⟨trivial, mapGet_set_self m id _⟩

/-- Witness for C9: 3 recorded failures with the last attempt at time 0,
    checked just after the window has elapsed. -/
theorem window_expiry_forgiveness_witness :
    (checkRateLimit [("u", { count := 3, lastAttemptAt := some 0 })] "u"
      (ATTEMPT_WINDOW + 1)).1 =
      { allowed := true, remainingAttempts := some MAX_LOGIN_ATTEMPTS } ∧
    mapGet (checkRateLimit [("u", { count := 3, lastAttemptAt := some 0 })] "u"
      (ATTEMPT_WINDOW + 1)).2 "u" = some { count := 0 } :=
  window_expiry_forgiveness [("u", { count := 3, lastAttemptAt := some 0 })] "u"
    (ATTEMPT_WINDOW + 1) { count := 3, lastAttemptAt := some 0 } 0 (by decide)
    (by decide) (by decide) (by decide)

-- ============ TRANSACTION LEMMAS ============

lemma salesSum_append (L : List TxLine) (l : TxLine) :
    salesSum (L ++ [l]) = salesSum L + l.sellingPrice * l.quantity := by
  simp [salesSum]

lemma cogsSum_append (L : List TxLine) (l : TxLine) :
    cogsSum (L ++ [l]) = cogsSum L + l.costPrice * l.quantity := by
  simp [cogsSum]

lemma reqQty_cons (i : TxReq) (L : List TxReq) (pid : String) :
    reqQty (i :: L) pid =
      (if i.productId == pid then i.quantity else 0) + reqQty L pid := by
  by_cases h : i.productId == pid <;> simp [reqQty, h]

lemma histSumL_cons (e : StockHistoryEntry) (h : List StockHistoryEntry)
    (pid : String) :
    histSumL (e :: h) pid =
      (if e.productId == pid then e.change else 0) + histSumL h pid := by
  by_cases hc : e.productId == pid <;> simp [histSumL, hc]

/-- Full characterization of a successful run of the transaction loop:
    the totals satisfy the documented arithmetic relative to the
    accumulators, the receipt lines extend the processed lines with
    exactly the requested product-quantity pairs, stock and history each
    move by exactly the requested quantities, the receipt is prepended to
    the stored transactions, and orders are untouched. -/
lemma commitTxGo_ok (actor : Actor) (now : String) (discount : ℤ) :
    ∀ (items : List TxReq) (s : State) (subtotal totalCogs : ℤ)
      (processed : List TxLine) (t : Transaction) (s' : State),
      commitTxGo actor now discount s items subtotal totalCogs processed
        = (.ok t, s') →
      t.discount = discount ∧
      t.total = max 0 (t.subtotal - discount) ∧
      t.profit = t.total - t.cogs ∧
      t.subtotal - salesSum t.items = subtotal - salesSum processed ∧
      t.cogs - cogsSum t.items = totalCogs - cogsSum processed ∧
      t.items.map (fun l => (l.productId, l.quantity)) =
        processed.map (fun l => (l.productId, l.quantity)) ++
          items.map (fun i => (i.productId, i.quantity)) ∧
      (∀ pid, stockOf s' pid = stockOf s pid - reqQty items pid) ∧
      (∀ pid, histSum s' pid = histSum s pid - reqQty items pid) ∧
      s'.transactions = t :: s.transactions ∧
      s'.orders = s.orders := by
  intro items
  induction items with
  | nil =>
    intro s subtotal totalCogs processed t s' h
    simp only [commitTxGo, Prod.mk.injEq, Except.ok.injEq] at h
    obtain ⟨ht, hs⟩ := h
    subst ht
    subst hs
    refine ⟨rfl, rfl, rfl, by simp, by simp, by simp, ?_, ?_, rfl, rfl⟩
    · intro pid; simp [stockOf, reqQty]
    · intro pid; simp [histSum, reqQty]
  | cons item rest ih =>
    intro s subtotal totalCogs processed t s' h
    cases hp : s.products item.productId with
    | none => simp [commitTxGo, hp] at h
    | some product =>
      by_cases hq : product.stock < item.quantity
      · simp [commitTxGo, hp, hq] at h
      · simp only [commitTxGo, hp, if_neg hq] at h
        obtain ⟨hd, htot, hprof, hsub, hcogs, hmap, hstock, hhist, htx, hord⟩ :=
          ih _ _ _ _ _ _ h
        rw [salesSum_append] at hsub
        rw [cogsSum_append] at hcogs
        refine ⟨hd, htot, hprof, by linarith, by linarith, ?_, ?_, ?_, ?_, ?_⟩
        · rw [hmap]; simp
        · intro pid
          rw [hstock pid, reqQty_cons]
          by_cases hpid : item.productId = pid
          · subst hpid
            simp only [stockOf, hp]
            simp [stockOf]
            ring
          · have hpid2 : ¬ (pid = item.productId) := fun hh => hpid hh.symm
            simp only [stockOf]
            simp [hpid, hpid2]
        · intro pid
          rw [hhist pid, reqQty_cons]
          by_cases hpid : item.productId = pid
          · subst hpid
            simp only [histSum]
            rw [histSumL_cons]
            simp
            ring
          · simp only [histSum]
            rw [histSumL_cons]
            simp [hpid]
        · rw [htx]
        · rw [hord]

/-- A failing run of the transaction loop persists no receipt, touches no
    order, and keeps the stock movement of every product equal to the sum
    of the history entries it appended (the already-processed prefix
    leaves matching decrements and entries). -/
lemma commitTxGo_err (actor : Actor) (now : String) (discount : ℤ) :
    ∀ (items : List TxReq) (s : State) (subtotal totalCogs : ℤ)
      (processed : List TxLine) (e : Err) (s' : State),
      commitTxGo actor now discount s items subtotal totalCogs processed
        = (.error e, s') →
      s'.transactions = s.transactions ∧ s'.orders = s.orders ∧
      (∀ pid, stockOf s' pid - stockOf s pid = histSum s' pid - histSum s pid) := by
  intro items
  induction items with
  | nil =>
    intro s subtotal totalCogs processed e s' h
    simp [commitTxGo] at h
  | cons item rest ih =>
    intro s subtotal totalCogs processed e s' h
    cases hp : s.products item.productId with
    | none =>
      simp [commitTxGo, hp, Prod.mk.injEq] at h
      rw [h.2]
      exact ⟨rfl, rfl, fun pid => by rw [sub_self, sub_self]⟩
    | some product =>
      by_cases hq : product.stock < item.quantity
      · simp only [commitTxGo, hp, if_pos hq, Prod.mk.injEq, Except.error.injEq] at h
        rw [h.2]
        exact ⟨rfl, rfl, fun pid => by rw [sub_self, sub_self]⟩
      · simp only [commitTxGo, hp, if_neg hq] at h
        obtain ⟨h1, h2, h3⟩ := ih _ _ _ _ _ _ h
        refine ⟨h1, h2, ?_⟩
        intro pid
        have hd := h3 pid
        simp only [stockOf, histSum] at hd ⊢
        rw [histSumL_cons] at hd
        by_cases he : pid = item.productId
        · subst he
          rw [if_pos rfl] at hd
          simp only [hp]
          simp only [beq_self_eq_true, if_true] at hd
          omega
        · rw [if_neg he] at hd
          have he2 : ¬ (item.productId == pid) = true := by
            simpa using fun hh => he hh.symm
          rw [if_neg he2] at hd
          omega

/-- C5: a transaction receipt is persisted exactly when every line was
    decremented.  On success the receipt is prepended to the stored
    transactions, its lines carry exactly the requested product and
    quantity pairs, every product's stock and history sum each moved by
    exactly the requested quantity for that product, and the persisted
    totals recompute from the persisted lines.  On failure at any line no
    receipt is persisted at all. -/
theorem transaction_commit_consistency (s : State) (actor : Actor)
    (now : String) (items : List TxReq) (discount : ℤ) :
    (∀ t, (commitTx s actor now items discount).1 = .ok t →
      (commitTx s actor now items discount).2.transactions
        = t :: s.transactions ∧
      t.items.map (fun l => (l.productId, l.quantity)) =
        items.map (fun i => (i.productId, i.quantity)) ∧
      (∀ pid, stockOf (commitTx s actor now items discount).2 pid =
        stockOf s pid - reqQty items pid) ∧
      (∀ pid, histSum (commitTx s actor now items discount).2 pid =
        histSum s pid - reqQty items pid) ∧
      t.subtotal = salesSum t.items ∧
      t.cogs = cogsSum t.items ∧
      t.total = max 0 (t.subtotal - t.discount) ∧
      t.profit = t.total - t.cogs) ∧
    (∀ e, (commitTx s actor now items discount).1 = .error e →
      (commitTx s actor now items discount).2.transactions = s.transactions) := by
  constructor
  · intro t ht
    have h : commitTxGo actor now discount s items 0 0 [] =
        (.ok t, (commitTx s actor now items discount).2) := by
      rw [← ht]
      rfl
    obtain ⟨hd, htot, hprof, hsub, hcogs, hmap, hstock, hhist, htx, _⟩ :=
      commitTxGo_ok actor now discount items s 0 0 [] t _ h
    have hsal0 : salesSum [] = 0 := rfl
    have hcog0 : cogsSum [] = 0 := rfl
    rw [hsal0] at hsub
    rw [hcog0] at hcogs
    refine ⟨htx, by simpa using hmap, hstock, hhist, by linarith, by linarith,
      ?_, hprof⟩
    rw [hd]
    exact htot
  · intro e he
    have h : commitTxGo actor now discount s items 0 0 [] =
        (.error e, (commitTx s actor now items discount).2) := by
      rw [← he]
      rfl
    exact (commitTxGo_err actor now discount items s 0 0 [] e _ h).1

/-- Witness for C5 at the example store: committing 2 units of p1 and 3 of
    p2 with discount 5 persists the expected receipt and moves the stock
    and the history of p1 by exactly the requested quantity. -/
theorem transaction_commit_consistency_witness :
    (commitTx exState exActor "t1" exItems 5).1 = .ok exTx ∧
    (commitTx exState exActor "t1" exItems 5).2.transactions
      = exTx :: exState.transactions ∧
    stockOf (commitTx exState exActor "t1" exItems 5).2 "p1"
      = stockOf exState "p1" - reqQty exItems "p1" ∧
    histSum (commitTx exState exActor "t1" exItems 5).2 "p1"
      = histSum exState "p1" - reqQty exItems "p1" := by
  have h := (transaction_commit_consistency exState exActor "t1" exItems 5).1
    exTx (by decide)
  exact ⟨by decide, h.1, h.2.2.1 "p1", h.2.2.2.1 "p1"⟩

/-- C8: every committed transaction satisfies subtotal = sum of
    sellingPrice times quantity over its lines, cogs = sum of costPrice
    times quantity, total = max(0, subtotal - discount) and profit =
    total - cogs; in particular the spec example with lines
    (price 10, cost 4, qty 2) and (price 5, cost 2, qty 3) and discount 5
    yields subtotal 35, total 30, cogs 14 and profit 16. -/
theorem transaction_arithmetic (s : State) (actor : Actor) (now : String)
    (items : List TxReq) (discount : ℤ) :
    (∀ t, (commitTx s actor now items discount).1 = .ok t →
      t.discount = discount ∧
      t.subtotal = salesSum t.items ∧
      t.cogs = cogsSum t.items ∧
      t.total = max 0 (t.subtotal - t.discount) ∧
      t.profit = t.total - t.cogs) ∧
    (∃ t, (commitTx exState exActor "t1" exItems 5).1 = .ok t ∧
      t.subtotal = 35 ∧ t.total = 30 ∧ t.cogs = 14 ∧ t.profit = 16) := by
  constructor
  · intro t ht
    have h : commitTxGo actor now discount s items 0 0 [] =
        (.ok t, (commitTx s actor now items discount).2) := by
      rw [← ht]
      rfl
    obtain ⟨hd, htot, hprof, hsub, hcogs, _, _, _, _, _⟩ :=
      commitTxGo_ok actor now discount items s 0 0 [] t _ h
    have hsal0 : salesSum [] = 0 := rfl
    have hcog0 : cogsSum [] = 0 := rfl
    rw [hsal0] at hsub
    rw [hcog0] at hcogs
    refine ⟨hd, by linarith, by linarith, ?_, hprof⟩
    rw [hd]
    exact htot
  · exact ⟨exTx, by decide, by decide, by decide, by decide, by decide⟩

/-- Witness for C8: the example receipt satisfies the arithmetic
    relations. -/
theorem transaction_arithmetic_witness :
    (commitTx exState exActor "t1" exItems 5).1 = .ok exTx ∧
    exTx.discount = 5 ∧
    exTx.subtotal = salesSum exTx.items ∧
    exTx.cogs = cogsSum exTx.items ∧
    exTx.total = max 0 (exTx.subtotal - exTx.discount) ∧
    exTx.profit = exTx.total - exTx.cogs := by
  have h := (transaction_arithmetic exState exActor "t1" exItems 5).1
    exTx (by decide)
  exact ⟨by decide, h⟩

-- ============ STOCK NONNEGATIVITY (C2) ============

lemma adjustStock_nonneg (s : State) (pid : String) (change : ℤ)
    (t? r? : Option String) (now : String) (actor : Actor)
    (hs : NonNegStocks s) :
    NonNegStocks (adjustStock s pid change t? r? now actor).2 := by
  cases hp : s.products pid with
  | none =>
    simp only [adjustStock, hp]
    exact hs
  | some product =>
    simp only [adjustStock, hp]
    intro pid2 p2 hp2
    dsimp only at hp2
    by_cases he : pid2 = pid
    · rw [if_pos he] at hp2
      have h2 := Option.some.inj hp2
      rw [← h2]
      exact le_max_left 0 _
    · rw [if_neg he] at hp2
      exact hs pid2 p2 hp2

lemma commitTxGo_nonneg (actor : Actor) (now : String) (discount : ℤ) :
    ∀ (items : List TxReq) (s : State) (subtotal totalCogs : ℤ)
      (processed : List TxLine),
      NonNegStocks s →
      NonNegStocks
        (commitTxGo actor now discount s items subtotal totalCogs processed).2 := by
  intro items
  induction items with
  | nil =>
    intro s subtotal totalCogs processed hs
    exact hs
  | cons item rest ih =>
    intro s subtotal totalCogs processed hs
    cases hp : s.products item.productId with
    | none =>
      simp only [commitTxGo, hp]
      exact hs
    | some product =>
      by_cases hq : product.stock < item.quantity
      · simp only [commitTxGo, hp, if_pos hq]
        exact hs
      · simp only [commitTxGo, hp, if_neg hq]
        apply ih
        intro pid2 p2 hp2
        dsimp only at hp2
        by_cases he : pid2 = item.productId
        · rw [if_pos he] at hp2
          have h2 := Option.some.inj hp2
          rw [← h2]
          dsimp only
          omega
        · rw [if_neg he] at hp2
          exact hs pid2 p2 hp2

lemma shipItems_nonneg (actor : Actor) (customerName : String) (now : String) :
    ∀ (items : List OrderItem) (s : State),
      NonNegStocks s →
      NonNegStocks (shipItems actor customerName now s items).2 := by
  intro items
  induction items with
  | nil =>
    intro s hs
    exact hs
  | cons item rest ih =>
    intro s hs
    cases hp : s.products item.productId with
    | none =>
      simp only [shipItems, hp]
      exact ih s hs
    | some product =>
      by_cases hq : product.stock < item.quantity
      · simp only [shipItems, hp, if_pos hq]
        exact hs
      · simp only [shipItems, hp, if_neg hq]
        apply ih
        intro pid2 p2 hp2
        dsimp only at hp2
        by_cases he : pid2 = item.productId
        · rw [if_pos he] at hp2
          have h2 := Option.some.inj hp2
          rw [← h2]
          dsimp only
          omega
        · rw [if_neg he] at hp2
          exact hs pid2 p2 hp2

lemma updateOrder_nonneg (s : State) (oid : String) (patch : OrderPatch)
    (now : String) (actor : Actor) (hs : NonNegStocks s) :
    NonNegStocks (updateOrder s oid patch now actor).2 := by
  cases ho : s.orders oid with
  | none =>
    simp only [updateOrder, ho]
    exact hs
  | some order =>
    simp only [updateOrder, ho]
    by_cases hok : statusOkB patch.status
    · rw [if_pos hok]
      by_cases hship : patch.status = some "shipped" ∧ order.stockReduced = false
      · rw [if_pos hship]
        have h := shipItems_nonneg actor order.customerName now order.items s hs
        cases hres : shipItems actor order.customerName now s order.items with
        | mk r s2 =>
          rw [hres] at h
          cases r with
          | error e => exact h
          | ok u => exact h
      · rw [if_neg hship]
        exact hs
    · rw [if_neg hok]
      exact hs

lemma applyOp_nonneg (s : State) (op : Op) (hs : NonNegStocks s) :
    NonNegStocks (applyOp s op) := by
  cases op with
  | adjust pid change t? r? now actor =>
    exact adjustStock_nonneg s pid change t? r? now actor hs
  | tx items discount now actor =>
    exact commitTxGo_nonneg actor now discount items s 0 0 [] hs
  | orderUpdate oid patch now actor =>
    exact updateOrder_nonneg s oid patch now actor hs

/-- C2: stock stays nonnegative under every sequence of stock-mutating
    calls: if every stored product has nonnegative stock, it still does
    after any sequence of manual adjustments, transaction commits and
    order updates.  Moreover the manual adjustment clamps its result at 0
    with Math.max, and a transaction whose first line exceeds the
    available stock is refused with InsufficientStock. -/
theorem stock_never_negative (s : State) :
    (∀ ops, NonNegStocks s → NonNegStocks (applyOps s ops)) ∧
    (∀ pid change t? r? now actor p q,
      s.products pid = some p →
      (adjustStock s pid change t? r? now actor).1 = .ok q →
      q.stock = max 0 (p.stock + change)) ∧
    (∀ actor now pid qty rest discount p,
      s.products pid = some p → p.stock < qty →
      (commitTx s actor now ({ productId := pid, quantity := qty } :: rest)
        discount).1 = .error .insufficientStock) := by
  refine ⟨?_, ?_, ?_⟩
  · intro ops
    induction ops generalizing s with
    | nil => intro hs; exact hs
    | cons op rest ih =>
      intro hs
      exact ih (applyOp s op) (applyOp_nonneg s op hs)
  · intro pid change t? r? now actor p q hp hq
    simp only [adjustStock, hp, Except.ok.injEq] at hq
    rw [← hq]
  · intro actor now pid qty rest discount p hp hq
    simp only [commitTx, commitTxGo, hp, if_pos hq]

/-- Witness for C2: the example store has nonnegative stocks, they remain
    nonnegative after a clamped manual adjustment of -20 on p1, the
    clamped result is exactly max 0 (8 - 20) = 0, and a sale of 20 units
    of p1 is refused with InsufficientStock. -/
theorem stock_never_negative_witness :
    NonNegStocks (applyOps exState
      [Op.adjust "p1" (-20) none none "t1" exActor]) ∧
    (adjustStock exState "p1" (-20) none none "t1" exActor).1 =
      .ok { id := "p1", name := "A", sellingPrice := 10, costPrice := 4,
            stock := 0, updatedAt := "t1" } ∧
    ({ id := "p1", name := "A", sellingPrice := 10, costPrice := 4,
       stock := 0, updatedAt := "t1" } : Product).stock = max 0 (8 + (-20)) ∧
    (commitTx exState exActor "t1"
      [{ productId := "p1", quantity := 20 }] 0).1 =
      .error .insufficientStock := by
  have hnn : NonNegStocks exState := by
    intro pid p hp
    simp only [exState, exProducts] at hp
    by_cases h1 : pid = "p1"
    · rw [if_pos h1] at hp
      have h2 := Option.some.inj hp
      rw [← h2]
      decide
    · rw [if_neg h1] at hp
      by_cases h2 : pid = "p2"
      · rw [if_pos h2] at hp
        have h3 := Option.some.inj hp
        rw [← h3]
        decide
      · rw [if_neg h2] at hp
        exact absurd hp (by simp)
  have h := stock_never_negative exState
  refine ⟨h.1 [Op.adjust "p1" (-20) none none "t1" exActor] hnn, by decide, ?_, ?_⟩
  · exact h.2.1 "p1" (-20) none none "t1" exActor
      { id := "p1", name := "A", sellingPrice := 10, costPrice := 4,
        stock := 8, updatedAt := "t0" }
      { id := "p1", name := "A", sellingPrice := 10, costPrice := 4,
        stock := 0, updatedAt := "t1" } (by decide) (by decide)
  · exact h.2.2 exActor "t1" "p1" 20 [] 0
      { id := "p1", name := "A", sellingPrice := 10, costPrice := 4,
        stock := 8, updatedAt := "t0" } (by decide) (by decide)

-- ============ LEDGER RECONCILIATION (C1) ============

/-- Whatever the outcome, the shipment loop keeps the stock movement of
    every product equal to the sum of the history entries it appended,
    and touches neither transactions nor orders. -/
lemma shipItems_del (actor : Actor) (customerName : String) (now : String) :
    ∀ (items : List OrderItem) (s : State) (r : Except Err Unit) (s' : State),
      shipItems actor customerName now s items = (r, s') →
      s'.transactions = s.transactions ∧ s'.orders = s.orders ∧
      (∀ pid, stockOf s' pid - stockOf s pid = histSum s' pid - histSum s pid) := by
  intro items
  induction items with
  | nil =>
    intro s r s' h
    simp only [shipItems, Prod.mk.injEq] at h
    rw [← h.2]
    exact ⟨rfl, rfl, fun pid => by rw [sub_self, sub_self]⟩
  | cons item rest ih =>
    intro s r s' h
    cases hp : s.products item.productId with
    | none =>
      rw [show shipItems actor customerName now s (item :: rest)
          = shipItems actor customerName now s rest by
        simp only [shipItems, hp]] at h
      exact ih s r s' h
    | some product =>
      by_cases hq : product.stock < item.quantity
      · simp only [shipItems, hp, if_pos hq, Prod.mk.injEq] at h
        rw [← h.2]
        exact ⟨rfl, rfl, fun pid => by rw [sub_self, sub_self]⟩
      · simp only [shipItems, hp, if_neg hq] at h
        obtain ⟨h1, h2, h3⟩ := ih _ _ _ h
        refine ⟨h1, h2, ?_⟩
        intro pid
        have hd := h3 pid
        simp only [stockOf, histSum] at hd ⊢
        rw [histSumL_cons] at hd
        by_cases he : pid = item.productId
        · subst he
          rw [if_pos rfl] at hd
          simp only [hp]
          simp only [beq_self_eq_true, if_true] at hd
          omega
        · rw [if_neg he] at hd
          have he2 : ¬ (item.productId == pid) = true := by
            simpa using fun hh => he hh.symm
          rw [if_neg he2] at hd
          omega

/-- The order update handler never touches transactions and keeps the
    stock movement of every product equal to the sum of the history
    entries it appended. -/
lemma updateOrder_del (s : State) (oid : String) (patch : OrderPatch)
    (now : String) (actor : Actor) :
    (updateOrder s oid patch now actor).2.transactions = s.transactions ∧
    (∀ pid, stockOf (updateOrder s oid patch now actor).2 pid - stockOf s pid
      = histSum (updateOrder s oid patch now actor).2 pid - histSum s pid) := by
  cases ho : s.orders oid with
  | none =>
    refine ⟨?_, ?_⟩ <;> simp [updateOrder, ho, stockOf, histSum]
  | some order =>
    simp only [updateOrder, ho]
    by_cases hok : statusOkB patch.status
    · rw [if_pos hok]
      by_cases hship : patch.status = some "shipped" ∧ order.stockReduced = false
      · rw [if_pos hship]
        cases hres : shipItems actor order.customerName now s order.items with
        | mk r s2 =>
          obtain ⟨h1, _, h3⟩ := shipItems_del actor order.customerName now
            order.items s r s2 hres
          cases r with
          | error e => exact ⟨h1, h3⟩
          | ok u => exact ⟨h1, h3⟩
      · rw [if_neg hship]
        exact ⟨rfl, fun pid => by simp [stockOf, histSum]⟩
    · rw [if_neg hok]
      exact ⟨rfl, fun pid => by rw [sub_self, sub_self]⟩

/-- A manual stock adjustment that does not clamp moves the stock by
    exactly the recorded change. -/
lemma adjustStock_del (s : State) (pid0 : String) (change : ℤ)
    (t? r? : Option String) (now : String) (actor : Actor)
    (hnc : ∀ p, s.products pid0 = some p → 0 ≤ p.stock + change) :
    ∀ pid, stockOf (adjustStock s pid0 change t? r? now actor).2 pid
        - stockOf s pid
      = histSum (adjustStock s pid0 change t? r? now actor).2 pid
        - histSum s pid := by
  intro pid
  cases hp : s.products pid0 with
  | none =>
    simp only [adjustStock, hp]
    rw [sub_self, sub_self]
  | some product =>
    have hmax : max 0 (product.stock + change) = product.stock + change :=
      max_eq_right (hnc product hp)
    simp only [adjustStock, hp, stockOf, histSum]
    rw [histSumL_cons]
    by_cases he : pid = pid0
    · subst he
      rw [if_pos rfl]
      simp only [hp, beq_self_eq_true, if_true, hmax]
      omega
    · rw [if_neg he]
      have he2 : ¬ (pid0 == pid) = true := by
        simpa using fun hh => he hh.symm
      rw [if_neg he2]
      omega

/-- One non-clamping call moves the stock of every product by exactly the
    sum of the history entries it appends. -/
lemma applyOp_del (s : State) (op : Op) (hnc : NoClampOp s op) (pid : String) :
    stockOf (applyOp s op) pid - stockOf s pid
      = histSum (applyOp s op) pid - histSum s pid := by
  cases op with
  | adjust pid0 change t? r? now actor =>
    exact adjustStock_del s pid0 change t? r? now actor hnc pid
  | tx items discount now actor =>
    show stockOf (commitTx s actor now items discount).2 pid - stockOf s pid
      = histSum (commitTx s actor now items discount).2 pid - histSum s pid
    cases hres : commitTx s actor now items discount with
    | mk r s2 =>
      cases r with
      | ok t =>
        obtain ⟨_, _, _, _, _, _, hstock, hhist, _, _⟩ :=
          commitTxGo_ok actor now discount items s 0 0 [] t s2 hres
        rw [hstock pid, hhist pid]
        ring
      | error e =>
        exact (commitTxGo_err actor now discount items s 0 0 [] e s2 hres).2.2 pid
  | orderUpdate oid patch now actor =>
    exact (updateOrder_del s oid patch now actor).2 pid

/-- C1 (amended): under any sequence of stock mutations in which no
    manual adjustment clamps (each adjustment satisfies stock + change
    nonnegative when applied), every product's stock moves by exactly the
    sum of the change fields of the history entries recorded during the
    sequence; with an initially empty history this is current stock =
    initial stock + the sum of all recorded changes.  A clamping manual
    adjustment breaks this, because the handler records the requested
    change rather than the applied delta. -/
theorem ledger_reconciliation (s : State) (ops : List Op)
    (h : NoClampSeq s ops) (pid : String) :
    stockOf (applyOps s ops) pid - stockOf s pid
      = histSum (applyOps s ops) pid - histSum s pid := by
  induction ops generalizing s with
  | nil => simp [applyOps]
  | cons op rest ih =>
    obtain ⟨hop, hrest⟩ := h
    have h1 := applyOp_del s op hop pid
    have h2 := ih (applyOp s op) hrest
    have hfold : applyOps s (op :: rest) = applyOps (applyOp s op) rest := rfl
    rw [hfold]
    omega

/-- Witness for C1: a non-clamping adjustment of -3 on p1 (stock 8) in
    the example store moves the stock by exactly the recorded history
    sum. -/
theorem ledger_reconciliation_witness :
    NoClampSeq exState [Op.adjust "p1" (-3) none none "t1" exActor] ∧
    stockOf (applyOps exState [Op.adjust "p1" (-3) none none "t1" exActor]) "p1"
        - stockOf exState "p1"
      = histSum (applyOps exState [Op.adjust "p1" (-3) none none "t1" exActor]) "p1"
        - histSum exState "p1" := by
  have hnc : NoClampSeq exState [Op.adjust "p1" (-3) none none "t1" exActor] := by
    refine ⟨?_, trivial⟩
    intro p hp
    have hx : exState.products "p1" = some
        { id := "p1", name := "A", sellingPrice := 10, costPrice := 4,
          stock := 8, updatedAt := "t0" } := by decide
    rw [hx] at hp
    have h2 := Option.some.inj hp
    rw [← h2]
    decide
  exact ⟨hnc, ledger_reconciliation exState
    [Op.adjust "p1" (-3) none none "t1" exActor] hnc "p1"⟩

/-- Counterexample to C1 as stated: a manual adjustment of -20 on p1
    (stock 8) clamps the stock to 0 but records change -20, so the final
    stock (0) differs from initial stock plus the recorded history sum
    (8 - 20 = -12). -/
theorem ledger_reconciliation_counterexample :
    stockOf (applyOp exState (Op.adjust "p1" (-20) none none "t1" exActor)) "p1"
      ≠ stockOf exState "p1"
        + histSum (applyOp exState (Op.adjust "p1" (-20) none none "t1" exActor))
            "p1" := by
  decide

-- ============ ORDER HANDLER LEMMAS (C3, C4, C7, C10) ============

/-- Requesting the shipped status on an order whose stockReduced flag is
    already true takes the plain merge path: no product or history write,
    and the merged order keeps stockReduced true. -/
lemma ship_noop_of_stockReduced (s : State) (oid : String) (now : String)
    (a : Actor) (o : Order) (ho : s.orders oid = some o)
    (hsr : o.stockReduced = true) :
    updateOrder s oid shipPatch now a =
      (.ok (mergeOrder o shipPatch now),
       { s with orders := fun k =>
           if k = oid then some (mergeOrder o shipPatch now) else s.orders k }) ∧
    (mergeOrder o shipPatch now).stockReduced = true := by
  have hok : statusOkB shipPatch.status = true := rfl
  have hns : ¬ (shipPatch.status = some "shipped" ∧ o.stockReduced = false) := by
    simp [shipPatch, hsr]
  simp only [updateOrder, ho]
  rw [if_pos hok, if_neg hns]
  exact ⟨rfl, by simp [mergeOrder, shipPatch, hsr]⟩

/-- Any number of repeated shipped requests against an order whose
    stockReduced flag is true leave products and history untouched. -/
lemma ship_fold_noop (oid : String) :
    ∀ (reqs : List (String × Actor)) (st : State) (o : Order),
      st.orders oid = some o → o.stockReduced = true →
      (reqs.foldl (fun acc pr => (updateOrder acc oid shipPatch pr.1 pr.2).2)
        st).products = st.products ∧
      (reqs.foldl (fun acc pr => (updateOrder acc oid shipPatch pr.1 pr.2).2)
        st).history = st.history := by
  intro reqs
  induction reqs with
  | nil => intro st o _ _; exact ⟨rfl, rfl⟩
  | cons pr rest ih =>
    intro st o ho hsr
    obtain ⟨heq, hsr2⟩ := ship_noop_of_stockReduced st oid pr.1 pr.2 o ho hsr
    have hst : (updateOrder st oid shipPatch pr.1 pr.2).2 =
        { st with orders := fun k =>
            if k = oid then some (mergeOrder o shipPatch pr.1) else st.orders k } := by
      rw [heq]
    rw [List.foldl_cons, hst]
    exact ih _ (mergeOrder o shipPatch pr.1) (by simp) hsr2

/-- A successful shipped request leaves the persisted order with
    stockReduced true. -/
lemma ship_success_stockReduced (s : State) (oid : String) (now : String)
    (a : Actor) (o1 : Order)
    (h : (updateOrder s oid shipPatch now a).1 = .ok o1) :
    o1.stockReduced = true ∧
    (updateOrder s oid shipPatch now a).2.orders oid = some o1 := by
  cases ho : s.orders oid with
  | none => simp [updateOrder, ho] at h
  | some order =>
    have hok : statusOkB shipPatch.status = true := rfl
    by_cases hsr : order.stockReduced
    · obtain ⟨heq, hsr2⟩ := ship_noop_of_stockReduced s oid now a order ho hsr
      rw [heq] at h ⊢
      have ho1 : mergeOrder order shipPatch now = o1 := by simpa using h
      refine ⟨?_, by simp [← ho1]⟩
      rw [← ho1]
      exact hsr2
    · have hsr' : order.stockReduced = false := by simpa using hsr
      have hcond : shipPatch.status = some "shipped" ∧ order.stockReduced = false :=
        ⟨rfl, hsr'⟩
      simp only [updateOrder, ho, if_pos hok, if_pos hcond] at h ⊢
      cases hres : shipItems a order.customerName now s order.items with
      | mk r s2 =>
        rw [hres] at h
        cases r with
        | error e => simp at h
        | ok u =>
          have ho1 : mergeOrder order
              (deliveredStamp
                { shipPatch with
                  stockReduced := some true,
                  shippedAt := some now, shippedBy := some a.userName } now) now
              = o1 := by simpa using h
          refine ⟨?_, by simp [← ho1]⟩
          rw [← ho1]
          rfl

/-- C4: after a successful shipped transition, every further shipped
    request on the same order is a no-op on stock: it still succeeds (the
    order merges again with status shipped) but products and stock
    history are untouched, however many times it is repeated — the
    stockReduced flag persisted by the first transition guards the
    reduction. -/
theorem ship_stock_reduce_idempotent (s : State) (oid : String)
    (now1 : String) (a1 : Actor) (o1 : Order)
    (h1 : (updateOrder s oid shipPatch now1 a1).1 = .ok o1) :
    o1.stockReduced = true ∧
    (updateOrder s oid shipPatch now1 a1).2.orders oid = some o1 ∧
    (∀ now2 a2,
      (updateOrder (updateOrder s oid shipPatch now1 a1).2 oid shipPatch
        now2 a2).1 = .ok (mergeOrder o1 shipPatch now2) ∧
      (updateOrder (updateOrder s oid shipPatch now1 a1).2 oid shipPatch
        now2 a2).2.products = (updateOrder s oid shipPatch now1 a1).2.products ∧
      (updateOrder (updateOrder s oid shipPatch now1 a1).2 oid shipPatch
        now2 a2).2.history = (updateOrder s oid shipPatch now1 a1).2.history) ∧
    (∀ reqs : List (String × Actor),
      (reqs.foldl (fun acc pr => (updateOrder acc oid shipPatch pr.1 pr.2).2)
        (updateOrder s oid shipPatch now1 a1).2).products
        = (updateOrder s oid shipPatch now1 a1).2.products ∧
      (reqs.foldl (fun acc pr => (updateOrder acc oid shipPatch pr.1 pr.2).2)
        (updateOrder s oid shipPatch now1 a1).2).history
        = (updateOrder s oid shipPatch now1 a1).2.history) := by
  obtain ⟨hsr, ho⟩ := ship_success_stockReduced s oid now1 a1 o1 h1
  refine ⟨hsr, ho, ?_, ?_⟩
  · intro now2 a2
    obtain ⟨heq, _⟩ := ship_noop_of_stockReduced _ oid now2 a2 o1 ho hsr
    rw [heq]
    exact ⟨rfl, rfl, rfl⟩
  · intro reqs
    exact ship_fold_noop oid reqs _ o1 ho hsr

/-- Witness for C4: shipping exOrder succeeds and produces exShipped; a
    second shipped request at time t2 succeeds with a plain merge and
    leaves products and history exactly as after the first. -/
theorem ship_stock_reduce_idempotent_witness :
    (updateOrder exState "o1" shipPatch "t1" exActor).1 = .ok exShipped ∧
    exShipped.stockReduced = true ∧
    (updateOrder (updateOrder exState "o1" shipPatch "t1" exActor).2 "o1"
      shipPatch "t2" exActor).1 = .ok (mergeOrder exShipped shipPatch "t2") ∧
    (updateOrder (updateOrder exState "o1" shipPatch "t1" exActor).2 "o1"
      shipPatch "t2" exActor).2.products
      = (updateOrder exState "o1" shipPatch "t1" exActor).2.products ∧
    (updateOrder (updateOrder exState "o1" shipPatch "t1" exActor).2 "o1"
      shipPatch "t2" exActor).2.history
      = (updateOrder exState "o1" shipPatch "t1" exActor).2.history := by
  have h := ship_stock_reduce_idempotent exState "o1" "t1" exActor exShipped
    (by decide)
  exact ⟨by decide, h.1, (h.2.2.1 "t2" exActor).1, (h.2.2.1 "t2" exActor).2.1,
    (h.2.2.1 "t2" exActor).2.2⟩

/-- The deliveredAt stamp never changes the other patch fields. -/
lemma deliveredStamp_stockReduced (p : OrderPatch) (now : String) :
    (deliveredStamp p now).stockReduced = p.stockReduced := by
  unfold deliveredStamp
  split <;> rfl

lemma deliveredStamp_items (p : OrderPatch) (now : String) :
    (deliveredStamp p now).items = p.items := by
  unfold deliveredStamp
  split <;> rfl

lemma deliveredStamp_totalAmount (p : OrderPatch) (now : String) :
    (deliveredStamp p now).totalAmount = p.totalAmount := by
  unfold deliveredStamp
  split <;> rfl

lemma deliveredStamp_status (p : OrderPatch) (now : String) :
    (deliveredStamp p now).status = p.status := by
  unfold deliveredStamp
  split <;> rfl

/-- An order update whose patch passes the status allowlist and does not
    trigger the one-time stock reduction is exactly the stamped merge
    persisted over the stored order, with no other key touched. -/
lemma updateOrder_merge_eq (s : State) (oid : String) (patch : OrderPatch)
    (now : String) (actor : Actor) (order : Order)
    (ho : s.orders oid = some order)
    (hok : statusOkB patch.status = true)
    (hns : ¬ (patch.status = some "shipped" ∧ order.stockReduced = false)) :
    updateOrder s oid patch now actor =
      (.ok (mergeOrder order (deliveredStamp patch now) now),
       { s with orders := fun k =>
           if k = oid then some (mergeOrder order (deliveredStamp patch now) now)
           else s.orders k }) := by
  simp only [updateOrder, ho]
  rw [if_pos hok, if_neg hns]

/-- C10: an order update whose patch does not request the shipped status
    on an order with stockReduced false writes no product and no
    stock-history record — only the order itself changes — and every
    field present in the patch, including stockReduced, items and
    totalAmount, is merged verbatim into the persisted order with no
    further validation (the only check is the status allowlist, assumed
    passed here). -/
theorem order_update_frame (s : State) (oid : String) (patch : OrderPatch)
    (now : String) (actor : Actor) (order : Order)
    (ho : s.orders oid = some order)
    (hok : statusOkB patch.status = true)
    (hns : ¬ (patch.status = some "shipped" ∧ order.stockReduced = false)) :
    updateOrder s oid patch now actor =
      (.ok (mergeOrder order (deliveredStamp patch now) now),
       { s with orders := fun k =>
           if k = oid then some (mergeOrder order (deliveredStamp patch now) now)
           else s.orders k }) ∧
    (updateOrder s oid patch now actor).2.products = s.products ∧
    (updateOrder s oid patch now actor).2.history = s.history ∧
    (updateOrder s oid patch now actor).2.transactions = s.transactions ∧
    (∀ b, patch.stockReduced = some b →
      (mergeOrder order (deliveredStamp patch now) now).stockReduced = b) ∧
    (∀ l, patch.items = some l →
      (mergeOrder order (deliveredStamp patch now) now).items = l) ∧
    (∀ q, patch.totalAmount = some q →
      (mergeOrder order (deliveredStamp patch now) now).totalAmount = q) := by
  have heq := updateOrder_merge_eq s oid patch now actor order ho hok hns
  refine ⟨heq, by rw [heq], by rw [heq], by rw [heq], ?_, ?_, ?_⟩
  · intro b hb
    simp [mergeOrder, deliveredStamp_stockReduced, hb]
  · intro l hl
    simp [mergeOrder, deliveredStamp_items, hl]
  · intro q hq
    simp [mergeOrder, deliveredStamp_totalAmount, hq]

/-- Witness for C10: a delivered-status patch carrying stockReduced,
    empty items and totalAmount 7 leaves products and history untouched
    and merges those fields verbatim. -/
theorem order_update_frame_witness :
    exState.orders "o1" = some exOrder ∧
    statusOkB exPatch.status = true ∧
    (updateOrder exState "o1" exPatch "t1" exActor).2.products
      = exState.products ∧
    (updateOrder exState "o1" exPatch "t1" exActor).2.history
      = exState.history ∧
    (mergeOrder exOrder (deliveredStamp exPatch "t1") "t1").stockReduced = true ∧
    (mergeOrder exOrder (deliveredStamp exPatch "t1") "t1").items = [] ∧
    (mergeOrder exOrder (deliveredStamp exPatch "t1") "t1").totalAmount = 7 := by
  have h := order_update_frame exState "o1" exPatch "t1" exActor exOrder
    (by decide) (by decide) (by decide)
  exact ⟨by decide, by decide, h.2.1, h.2.2.1, h.2.2.2.2.1 true (by decide),
    h.2.2.2.2.2.1 [] (by decide), h.2.2.2.2.2.2 7 (by decide)⟩

/-- C3 (amended): the handler validates a requested status only for
    membership in the pending, shipped, delivered allowlist.  A status
    outside the three is rejected with the store unchanged; any status
    inside the three is accepted and merged regardless of the current
    status — transitions are not direction-checked (shown here for every
    request that does not trigger the stock reduction; a shipped request
    is additionally subject to stock availability). -/
theorem order_status_transitions (s : State) (oid : String)
    (patch : OrderPatch) (now : String) (actor : Actor) (order : Order)
    (ho : s.orders oid = some order) :
    (statusOkB patch.status = false →
      updateOrder s oid patch now actor = (.error .validation, s)) ∧
    (∀ v, patch.status = some v → statusOkB (some v) = true →
      ¬ (v = "shipped" ∧ order.stockReduced = false) →
      (updateOrder s oid patch now actor).1
        = .ok (mergeOrder order (deliveredStamp patch now) now) ∧
      (mergeOrder order (deliveredStamp patch now) now).status = v) := by
  constructor
  · intro hbad
    simp only [updateOrder, ho]
    rw [if_neg (by simp [hbad])]
  · intro v hv hvok hns
    have hok : statusOkB patch.status = true := by rw [hv]; exact hvok
    have hns2 : ¬ (patch.status = some "shipped" ∧ order.stockReduced = false) := by
      intro hcon
      rw [hv] at hcon
      exact hns ⟨Option.some.inj hcon.1, hcon.2⟩
    have heq := updateOrder_merge_eq s oid patch now actor order ho hok hns2
    refine ⟨by rw [heq], ?_⟩
    simp [mergeOrder, deliveredStamp_status, hv]

/-- Witness for C3 (amended): on the delivered order oD a bogus status is
    rejected leaving the store unchanged, while a pending status is
    accepted and persisted. -/
theorem order_status_transitions_witness :
    updateOrder exStateD "oD" { status := some "bogus" } "t1" exActor
      = (.error .validation, exStateD) ∧
    (updateOrder exStateD "oD" { status := some "pending" } "t1" exActor).1
      = .ok (mergeOrder exOrderD
          (deliveredStamp { status := some "pending" } "t1") "t1") ∧
    (mergeOrder exOrderD (deliveredStamp { status := some "pending" } "t1")
      "t1").status = "pending" := by
  have h1 := order_status_transitions exStateD "oD" { status := some "bogus" }
    "t1" exActor exOrderD (by decide)
  have h2 := order_status_transitions exStateD "oD" { status := some "pending" }
    "t1" exActor exOrderD (by decide)
  have h3 := h2.2 "pending" (by decide) (by decide) (by decide)
  exact ⟨h1.1 (by decide), h3.1, h3.2⟩

/-- Counterexample to C3 as stated: the stored order oD is delivered, yet
    a pending-status update is accepted and the persisted order is
    pending again — the terminal state is not terminal and transitions
    are not forward-only. -/
theorem order_status_counterexample :
    exStateD.orders "oD" = some exOrderD ∧
    exOrderD.status = "delivered" ∧
    (updateOrder exStateD "oD" { status := some "pending" } "t1" exActor).1
      = .ok (mergeOrder exOrderD
          (deliveredStamp { status := some "pending" } "t1") "t1") ∧
    (mergeOrder exOrderD (deliveredStamp { status := some "pending" } "t1")
      "t1").status = "pending" := by
  exact ⟨by decide, by decide, by decide, by decide⟩

/-- C7 (amended): the shipment loop silently skips a line item whose
    product record is absent — it neither fails with NotFound nor writes
    any stock or history for that line, and simply continues with the
    remaining items. -/
theorem ship_missing_product (s : State) (item : OrderItem)
    (rest : List OrderItem) (actor : Actor) (customerName now : String)
    (h : s.products item.productId = none) :
    shipItems actor customerName now s (item :: rest)
      = shipItems actor customerName now s rest := by
  simp only [shipItems, h]

/-- Witness for C7 (amended): the dangling line item of ghostOrder is
    skipped outright. -/
theorem ship_missing_product_witness :
    ghostState.products "ghost" = none ∧
    shipItems exActor "G" "t1" ghostState [ghostItem]
      = shipItems exActor "G" "t1" ghostState [] := by
  have h := ship_missing_product ghostState ghostItem [] exActor "G" "t1"
    (by decide)
  exact ⟨by decide, h⟩

/-- Counterexample to C7 as stated: shipping the order oG, whose only
    line item references the absent product ghost, does not fail with
    NotFound — the transition succeeds and marks the order shipped with
    stockReduced true. -/
theorem ship_missing_product_counterexample :
    ghostState.products "ghost" = none ∧
    (updateOrder ghostState "oG" shipPatch "t1" exActor).1
      ≠ .error .notFound ∧
    (updateOrder ghostState "oG" shipPatch "t1" exActor).1
      = .ok (mergeOrder ghostOrder
          { shipPatch with
            stockReduced := some true, shippedAt := some "t1",
            shippedBy := some "U" } "t1") := by
  exact ⟨by decide, by decide, by decide⟩

end POS
